import Mathlib

/-!
Verification of the asynchronous changelog-generation job pipeline in
src/server.js (changelogGeneratorService).

The JavaScript source is shallowly embedded as executable Lean definitions:

* commit dates are modelled as integers (the value obtained by parsing the
  date with new Date, which is how the source compares dates);
* the in-memory Map of jobs (changelogJobs) is an association list with
  JavaScript Map semantics (set replaces an existing key in place, get is a
  lookup by key);
* the three external collaborators (GitHub commit fetch, the LLM
  summarizer, the Firestore addDoc call) are modelled by the outcome each
  call produces in a given run, as an Except value, so that every control
  path of the orchestration code is represented;
* the POST handler is embedded together with the request body it
  destructures: the shipped middleware stack installs no body parser, so
  req.body is undefined and the destructure throws into the catch that
  responds 500 without touching state, while a parsed body follows the
  insert-then-respond path;
* the fire-and-forget dispatch of generateChangelogAsync is modelled by an
  event machine: a post event performs exactly what the POST handler does
  before responding, and a separate bg event performs the background task
  body, so the response and any immediately following status read are
  independent of the background outcome, as in the source.
-/

/-- One commit as returned by fetchCommitsInDateRange (src/server.js:227-232).
The date field holds the parsed timestamp. -/
structure CommitSummary where
  sha : String
  message : String
  author : String
  date : ℤ
deriving DecidableEq

/-- One item of the summarizer draft (description plus commit link). -/
structure DraftItem where
  description : String
  commitLink : String
deriving DecidableEq

/-- One category block of the summarizer draft. -/
structure DraftChange where
  category : String
  items : List DraftItem
deriving DecidableEq

/-- The parsed JSON draft returned by generateChangelogFromCommits
(src/server.js:112-125): an object with a changes array. -/
structure ChangelogDraft where
  changes : List DraftChange
deriving DecidableEq

/-- A persisted bullet point (src/server.js:168-171). -/
structure StoredBullet where
  bulletPointDetails : String
  linkToRelevantCommit : String
deriving DecidableEq

/-- A persisted section (src/server.js:166-172). -/
structure StoredSection where
  heading : String
  bulletPoints : List StoredBullet
deriving DecidableEq

/-- The record written to the changelogs collection (src/server.js:160-173). -/
structure ChangelogData where
  timestampOfMostRecentCommit : ℤ
  version : Option String
  title : Option String
  startDate : String
  endDate : String
  sections : List StoredSection
deriving DecidableEq

/-- A JavaScript exception: either the TypeError raised by reading a
property of null, or an error thrown by an external collaborator. -/
inductive JsError where
  | typeError : JsError
  | external : String → JsError
deriving DecidableEq

/-- Job status strings used by the job table (src/server.js:349, 197, 210). -/
inductive JobStatus where
  | processing : JobStatus
  | completed : JobStatus
  | error : JobStatus
deriving DecidableEq

/-- The changelog object placed on a completed job (src/server.js:199-205):
the Firestore document id, the completion-time Date, the caller-supplied
version and title, and the changes array of the draft. -/
structure JobChangelog where
  id : String
  date : ℤ
  version : Option String
  title : Option String
  changes : List DraftChange
deriving DecidableEq

/-- An entry of the changelogJobs map. Fields absent on the JavaScript
object literal are modelled as none. -/
structure Job where
  status : JobStatus
  completed : Bool
  changelog : Option JobChangelog
  error : Option String
deriving DecidableEq

/-- The changelogJobs Map (src/server.js:46), with JavaScript Map
semantics: insertion order is kept and set on an existing key replaces
its value in place. -/
abbrev JobTable := List (String × Job)

/-- Map.get (none when the key is absent). -/
def tableGet : JobTable → String → Option Job
  | [], _ => none
  | (k, v) :: rest, id => if k = id then some v else tableGet rest id

/-- Map.set (replace in place, or append a fresh key). -/
def tableSet : JobTable → String → Job → JobTable
  | [], id, job => [(id, job)]
  | (k, v) :: rest, id, job =>
    if k = id then (id, job) :: rest else (k, v) :: tableSet rest id job

/-- JavaScript string split on a newline: "".split yields one empty chunk,
and every newline character closes the chunk accumulated so far.
Embeds patch.split used at src/server.js:79-80. -/
def splitLinesAux : List Char → List Char → List String
  | [], acc => [String.mk acc.reverse]
  | c :: cs, acc =>
    if c = '\n' then String.mk acc.reverse :: splitLinesAux cs []
    else splitLinesAux cs (c :: acc)

/-- patch.split applied to a Lean string. -/
def splitLines (s : String) : List String :=
  splitLinesAux s.data []

/-- JavaScript Array.join with a newline separator: empty array gives the
empty string, otherwise the elements interleaved with single newlines.
Embeds .join used at src/server.js:79. -/
def joinLines : List String → String
  | [] => ("")
  | [s] => s
  | s :: rest => s ++ ("\n") ++ joinLines rest

/-- The patchPreview expression of generateChangelogFromCommits
(src/server.js:78-81): when the file has a patch, the first five lines of
the patch joined back together, followed by a newline and three dots when
the patch has more than five lines; the empty string when the file has no
patch (an absent or empty patch field is falsy in JavaScript). -/
def patchPreview (patch : Option String) : String :=
  match patch with
  | none => ("")
  | some p =>
    if p = ("") then ("")
    else
      joinLines ((splitLines p).take 5) ++
        (if 5 < (splitLines p).length then ("\n...") else (""))

/-- One step of the reduce at src/server.js:155-158: keep the current
commit when its date is strictly later than the latest seen so far. -/
def latestStep (latest : Option CommitSummary) (current : CommitSummary) :
    Option CommitSummary :=
  match latest with
  | none => some current
  | some prev => if prev.date < current.date then some current else some prev

/-- commits.reduce with a null initial value (src/server.js:155-158). -/
def mostRecentCommit (commits : List CommitSummary) : Option CommitSummary :=
  commits.foldl latestStep none

/-- Structural recursion equivalent of folding latestStep from a non-null
accumulator; used to reason about mostRecentCommit. -/
def pickLatest (c : CommitSummary) : List CommitSummary → CommitSummary
  | [] => c
  | x :: xs => pickLatest (if c.date < x.date then x else c) xs

/-- The sections mapping of storeChangelog (src/server.js:166-172):
category becomes heading, each item maps description and commitLink onto
bulletPointDetails and linkToRelevantCommit. -/
def toSections (changelog : ChangelogDraft) : List StoredSection :=
  changelog.changes.map fun change =>
    { heading := change.category
      bulletPoints := change.items.map fun item =>
        { bulletPointDetails := item.description
          linkToRelevantCommit := item.commitLink } }

/-- JavaScript value-or-null coalescing used for version and title
(src/server.js:162-163): an absent or empty string becomes null. -/
def orNull (v : Option String) : Option String :=
  match v with
  | none => none
  | some s => if s = ("") then none else some s

/-- The changelogData object literal of storeChangelog
(src/server.js:155-173). When the commit list is empty the reduce yields
null and reading date from it raises a TypeError, modelled as none. -/
def buildChangelogData (changelog : ChangelogDraft) (commits : List CommitSummary)
    (version title : Option String) (startDate endDate : String) :
    Option ChangelogData :=
  (mostRecentCommit commits).map fun m =>
    { timestampOfMostRecentCommit := m.date
      version := orNull version
      title := orNull title
      startDate := startDate
      endDate := endDate
      sections := toSections changelog }

/-- storeChangelog (src/server.js:153-182): assemble the record, then
append it through addDoc, returning the assigned document id. Any raised
exception (the TypeError of the empty commit set, or an addDoc failure)
propagates to the caller. The store is the changelogs collection. -/
def storeChangelog (store : List ChangelogData) (changelog : ChangelogDraft)
    (commits : List CommitSummary) (version title : Option String)
    (startDate endDate : String) (addDocResult : Except JsError String) :
    Except JsError (List ChangelogData × String) :=
  match buildChangelogData changelog commits version title startDate endDate with
  | none => Except.error JsError.typeError
  | some data =>
    match addDocResult with
    | Except.error e => Except.error e
    | Except.ok docId => Except.ok (store ++ [data], docId)

/-- The job written on success (src/server.js:196-206). -/
def completedJob (docId : String) (completionTime : ℤ)
    (version title : Option String) (changelog : ChangelogDraft) : Job :=
  { status := JobStatus.completed
    completed := true
    changelog := some
      { id := docId
        date := completionTime
        version := version
        title := title
        changes := changelog.changes }
    error := none }

/-- The job written by the catch block (src/server.js:209-213): a fixed
generic record that carries none of the original exception detail. -/
def failedJob : Job :=
  { status := JobStatus.error
    completed := true
    changelog := none
    error := some ("Failed to generate changelog") }

/-- generateChangelogAsync (src/server.js:185-215). The outcomes of the
three awaited collaborator calls in this run are passed in as Except
values; a failure at any of them reaches the single catch block, which
performs the one terminal write of the generic failedJob. On success the
assembled record is appended to the store and the completed job is
written. Returns the job table and the store after the task finishes. -/
def generateChangelogAsync (table : JobTable) (store : List ChangelogData)
    (jobId : String) (fetchResult : Except JsError (List CommitSummary))
    (summarizeResult : Except JsError ChangelogDraft)
    (addDocResult : Except JsError String) (completionTime : ℤ)
    (version title : Option String) (startDate endDate : String) :
    JobTable × List ChangelogData :=
  match fetchResult with
  | Except.error _ => (tableSet table jobId failedJob, store)
  | Except.ok commits =>
    match summarizeResult with
    | Except.error _ => (tableSet table jobId failedJob, store)
    | Except.ok changelog =>
      match storeChangelog store changelog commits version title startDate endDate addDocResult with
      | Except.error _ => (tableSet table jobId failedJob, store)
      | Except.ok (store2, changelogId) =>
        (tableSet table jobId
          (completedJob changelogId completionTime version title changelog), store2)

/-- The job id allocation of the POST handler (src/server.js:345):
Date.now().toString(), the observed millisecond clock in decimal. -/
def jobIdOf (now : ℕ) : String := toString now

/-- The job inserted synchronously by the POST handler
(src/server.js:348-351). -/
def processingJob : Job :=
  { status := JobStatus.processing
    completed := false
    changelog := none
    error := none }

/-- The mutable server state touched by the pipeline: the changelogJobs
map and the changelogs collection. -/
abbrev ServerState := JobTable × List ChangelogData

/-- Bodies of the JSON responses produced by the modelled routes. -/
inductive ResponseBody where
  | jobBody : Job → ResponseBody
  | errorBody : String → ResponseBody
  | idBody : String → ResponseBody
deriving DecidableEq

/-- An HTTP response: status code and JSON body. -/
structure HttpResponse where
  status : ℕ
  body : ResponseBody
deriving DecidableEq

/-- The object the handler destructures out of req.body
(src/server.js:344); each field of a parsed JSON body may be absent. -/
structure GenerateBody where
  startDate : Option String
  endDate : Option String
  version : Option String
  title : Option String

/-- POST /api/changelogs (src/server.js:342-361). The handler first
destructures req.body; when req.body is undefined (none) that
destructuring raises a TypeError, reaching the catch at lines 357-360,
which responds 500 with the fixed message and touches no state. With a
parsed body it allocates the id from the observed clock, inserts the
processing job, and responds with the id; the background task is
dispatched without await, so nothing of it happens before the response
(it is a separate bg event of the machine below). -/
def postChangelogsHandler (s : ServerState) (body : Option GenerateBody)
    (now : ℕ) : HttpResponse × ServerState :=
  match body with
  | none =>
    (⟨500, ResponseBody.errorBody ("Failed to start changelog generation")⟩, s)
  | some _ =>
    let jobId := jobIdOf now
    (⟨200, ResponseBody.idBody jobId⟩, (tableSet s.1 jobId processingJob, s.2))

/-- The request body the shipped middleware stack delivers to the POST
handler: src/server.js installs no body-parsing middleware (the only
app.use, at lines 22-34, is the cors handler), so req.body is undefined
for every request. -/
def shippedRequestBody : Option GenerateBody := none

/-- GET /api/changelogs/status/:id (src/server.js:364-373): a pure read of
the job table. Unknown ids give 404 with the fixed body; the state is
returned unchanged in both branches. -/
def getStatusHandler (s : ServerState) (id : String) :
    HttpResponse × ServerState :=
  match tableGet s.1 id with
  | none => (⟨404, ResponseBody.errorBody ("Job not found")⟩, s)
  | some job => (⟨200, ResponseBody.jobBody job⟩, s)

/-- The collaborator outcomes and request data consumed by one background
task. -/
structure BgArgs where
  fetchResult : Except JsError (List CommitSummary)
  summarizeResult : Except JsError ChangelogDraft
  addDocResult : Except JsError String
  completionTime : ℤ
  version : Option String
  title : Option String
  startDate : String
  endDate : String

/-- An event of the single-process run: a POST handler execution at a given
clock value with the body the middleware delivered for that request, or
the completion of the background task of the job allocated at that clock
value. -/
inductive ServerEvent where
  | post : ℕ → Option GenerateBody → ServerEvent
  | bg : ℕ → BgArgs → ServerEvent

/-- Effect of one event on the server state. -/
def stepEvent (s : ServerState) : ServerEvent → ServerState
  | ServerEvent.post now body => (postChangelogsHandler s body now).2
  | ServerEvent.bg now args =>
    generateChangelogAsync s.1 s.2 (jobIdOf now) args.fetchResult
      args.summarizeResult args.addDocResult args.completionTime
      args.version args.title args.startDate args.endDate

/-- Run a list of events in order. -/
def runEvents (s : ServerState) : List ServerEvent → ServerState
  | [] => s
  | e :: es => runEvents (stepEvent s e) es

/-- State at process start: empty job map, empty collection. -/
def initialState : ServerState := ([], [])

/-- The job ids allocated by the submit calls of a run: only a POST whose
request body was parsed reaches the allocation at src/server.js:345. -/
def allocatedIds (evs : List ServerEvent) : List String :=
  evs.filterMap fun e =>
    match e with
    | ServerEvent.post now (some _) => some (jobIdOf now)
    | ServerEvent.post _ none => none
    | ServerEvent.bg _ _ => none

/-- The job table key an event writes, when it writes one: a POST with an
undefined body throws before any write. -/
def writtenKey : ServerEvent → Option String
  | ServerEvent.post now (some _) => some (jobIdOf now)
  | ServerEvent.post _ none => none
  | ServerEvent.bg now _ => some (jobIdOf now)

/-- Pagination metadata of GET /api/commits (src/server.js:272-284):
Math.ceil of the exact quotient, and the strict comparison of
(page + 1) * pageSize against the total. -/
structure CommitsMeta where
  totalPages : ℤ
  hasMore : Bool
deriving DecidableEq

/-- The totalPages and hasMore computation of the commits route. -/
def commitsPageMeta (page pageSize totalCommits : ℕ) : CommitsMeta :=
  { totalPages := ⌈(totalCommits : ℚ) / (pageSize : ℚ)⌉
    hasMore := decide ((page + 1) * pageSize < totalCommits) }

/-- Numeric value of a decimal digit character. -/
def digitVal (c : Char) : ℕ := c.toNat - 48

/-- Decimal reading of a digit list, used to invert Nat.repr. -/
def readDigits (l : List Char) : ℕ :=
  l.foldl (fun acc c => acc * 10 + digitVal c) 0

theorem stringMk_data (l : List Char) : (String.mk l).data = l := rfl

theorem stringMk_data_self (s : String) : String.mk s.data = s := by
  cases s
  rfl

theorem tableGet_tableSet_self (t : JobTable) (k : String) (v : Job) :
    tableGet (tableSet t k v) k = some v := by
  induction t with
  | nil => simp [tableSet, tableGet]
  | cons hd rest ih =>
    obtain ⟨k2, v2⟩ := hd
    by_cases h : k2 = k
    · simp [tableSet, h, tableGet]
    · simp [tableSet, h, tableGet, ih]

theorem tableGet_tableSet_ne (t : JobTable) (k k2 : String) (v : Job)
    (h : k ≠ k2) : tableGet (tableSet t k v) k2 = tableGet t k2 := by
  induction t with
  | nil => simp [tableSet, tableGet, h]
  | cons hd rest ih =>
    obtain ⟨k3, v3⟩ := hd
    by_cases h2 : k3 = k
    · subst h2
      simp [tableSet, tableGet, h]
    · simp only [tableSet, if_neg h2]
      by_cases h3 : k3 = k2 <;> simp [tableGet, h3, ih]

theorem foldl_latestStep_some (l : List CommitSummary) :
    ∀ c : CommitSummary, l.foldl latestStep (some c) = some (pickLatest c l) := by
  induction l with
  | nil => intro c; rfl
  | cons x xs ih =>
    intro c
    show xs.foldl latestStep (latestStep (some c) x) = _
    by_cases h : c.date < x.date <;> simp [latestStep, h, pickLatest, ih]

theorem mostRecentCommit_cons (c : CommitSummary) (l : List CommitSummary) :
    mostRecentCommit (c :: l) = some (pickLatest c l) := by
  show l.foldl latestStep (latestStep none c) = _
  exact foldl_latestStep_some l c

theorem date_le_pickLatest (l : List CommitSummary) :
    ∀ c : CommitSummary, c.date ≤ (pickLatest c l).date := by
  induction l with
  | nil => intro c; exact le_refl _
  | cons x xs ih =>
    intro c
    by_cases h : c.date < x.date
    · simp only [pickLatest, if_pos h]
      exact le_trans (le_of_lt h) (ih x)
    · simp only [pickLatest, if_neg h]
      exact ih c

theorem mem_date_le_pickLatest (l : List CommitSummary) :
    ∀ (c x : CommitSummary), x ∈ l → x.date ≤ (pickLatest c l).date := by
  induction l with
  | nil => intro c x hx; cases hx
  | cons y ys ih =>
    intro c x hx
    simp only [pickLatest]
    rcases List.mem_cons.mp hx with h | h
    · subst h
      by_cases hcy : c.date < x.date
      · rw [if_pos hcy]
        exact date_le_pickLatest ys x
      · rw [if_neg hcy]
        exact le_trans (not_lt.mp hcy) (date_le_pickLatest ys c)
    · exact ih _ x h

theorem find?_max_eq_pickLatest (l : List CommitSummary) :
    ∀ c : CommitSummary,
      ((c :: l).find? fun x => x.date == (pickLatest c l).date)
        = some (pickLatest c l) := by
  induction l with
  | nil =>
    intro c
    simp [pickLatest]
  | cons x xs ih =>
    intro c
    simp only [pickLatest]
    by_cases hcx : c.date < x.date
    · rw [if_pos hcx]
      have h1 : c.date < (pickLatest x xs).date :=
        lt_of_lt_of_le hcx (date_le_pickLatest xs x)
      have hpc : (c.date == (pickLatest x xs).date) = false := by
        simp only [beq_eq_false_iff_ne, ne_eq]
        omega
      rw [List.find?_cons]
      simp only [hpc]
      exact ih x
    · rw [if_neg hcx]
      by_cases hc : c.date = (pickLatest c xs).date
      · have hpc : (c.date == (pickLatest c xs).date) = true := by simpa using hc
        have h2 := ih c
        rw [List.find?_cons] at h2
        simp only [hpc] at h2
        rw [List.find?_cons]
        simp only [hpc]
        exact h2
      · have hpc : (c.date == (pickLatest c xs).date) = false := by simpa using hc
        have hpx : (x.date == (pickLatest c xs).date) = false := by
          simp only [beq_eq_false_iff_ne, ne_eq]
          have h1 : x.date ≤ c.date := not_lt.mp hcx
          have h2 : c.date ≤ (pickLatest c xs).date := date_le_pickLatest xs c
          omega
        have h2 := ih c
        rw [List.find?_cons] at h2
        simp only [hpc] at h2
        rw [List.find?_cons]
        simp only [hpc]
        rw [List.find?_cons]
        simp only [hpx]
        exact h2

theorem generateChangelogAsync_writes_only_jobId (table : JobTable)
    (store : List ChangelogData) (jobId id : String)
    (fetchResult : Except JsError (List CommitSummary))
    (summarizeResult : Except JsError ChangelogDraft)
    (addDocResult : Except JsError String) (completionTime : ℤ)
    (version title : Option String) (startDate endDate : String)
    (h : jobId ≠ id) :
    tableGet (generateChangelogAsync table store jobId fetchResult summarizeResult
      addDocResult completionTime version title startDate endDate).1 id
      = tableGet table id := by
  unfold generateChangelogAsync
  rcases fetchResult with e | commits
  · exact tableGet_tableSet_ne table jobId id failedJob h
  rcases summarizeResult with e | changelog
  · exact tableGet_tableSet_ne table jobId id failedJob h
  rcases hs : storeChangelog store changelog commits version title startDate endDate addDocResult with e | pair
  · simp only [hs]
    exact tableGet_tableSet_ne table jobId id failedJob h
  · obtain ⟨store2, changelogId⟩ := pair
    simp only [hs]
    exact tableGet_tableSet_ne table jobId id _ h

theorem tableGet_runEvents_of_not_written (evs : List ServerEvent) :
    ∀ (s : ServerState) (id : String), (∀ e ∈ evs, writtenKey e ≠ some id) →
      tableGet (runEvents s evs).1 id = tableGet s.1 id := by
  induction evs with
  | nil => intro s id _; rfl
  | cons e es ih =>
    intro s id h
    have he : writtenKey e ≠ some id := h e (List.mem_cons_self e es)
    have hes : ∀ e2 ∈ es, writtenKey e2 ≠ some id :=
      fun e2 h2 => h e2 (List.mem_cons_of_mem e h2)
    show tableGet (runEvents (stepEvent s e) es).1 id = _
    rw [ih (stepEvent s e) id hes]
    cases e with
    | post now body =>
      cases body with
      | none => rfl
      | some b =>
        have hne : jobIdOf now ≠ id := by
          intro hk
          exact he (by rw [← hk]; rfl)
        exact tableGet_tableSet_ne s.1 (jobIdOf now) id processingJob hne
    | bg now args =>
      have hne : jobIdOf now ≠ id := by
        intro hk
        exact he (by rw [← hk]; rfl)
      exact generateChangelogAsync_writes_only_jobId s.1 s.2 (jobIdOf now) id
        args.fetchResult args.summarizeResult args.addDocResult
        args.completionTime args.version args.title args.startDate args.endDate hne

theorem splitLinesAux_ne_nil (cs : List Char) : ∀ acc, splitLinesAux cs acc ≠ [] := by
  induction cs with
  | nil => intro acc; simp [splitLinesAux]
  | cons c cs ih =>
    intro acc
    by_cases h : c = '\n'
    · simp [splitLinesAux, h]
    · simp only [splitLinesAux, if_neg h]
      exact ih (c :: acc)

theorem splitLines_ne_nil (s : String) : splitLines s ≠ [] :=
  splitLinesAux_ne_nil s.data []

theorem splitLinesAux_no_newline (cs : List Char) :
    ∀ acc, (∀ c ∈ acc, c ≠ '\n') →
      ∀ x ∈ splitLinesAux cs acc, ∀ c ∈ x.data, c ≠ '\n' := by
  induction cs with
  | nil =>
    intro acc hacc x hx c hc
    simp only [splitLinesAux, List.mem_singleton] at hx
    subst hx
    rw [stringMk_data] at hc
    exact hacc c (List.mem_reverse.mp hc)
  | cons d cs ih =>
    intro acc hacc x hx c hc
    by_cases h : d = '\n'
    · simp only [splitLinesAux, if_pos h] at hx
      rcases List.mem_cons.mp hx with h1 | h1
      · subst h1
        rw [stringMk_data] at hc
        exact hacc c (List.mem_reverse.mp hc)
      · exact ih [] (by simp) x h1 c hc
    · simp only [splitLinesAux, if_neg h] at hx
      refine ih (d :: acc) ?_ x hx c hc
      intro c2 hc2
      rcases List.mem_cons.mp hc2 with h2 | h2
      · subst h2; exact h
      · exact hacc c2 h2

theorem splitLinesAux_all_no_newline (cs : List Char) :
    (∀ c ∈ cs, c ≠ '\n') → ∀ acc,
      splitLinesAux cs acc = [String.mk (acc.reverse ++ cs)] := by
  induction cs with
  | nil => intro _ acc; simp [splitLinesAux]
  | cons d cs ih =>
    intro h acc
    have hd : d ≠ '\n' := h d (List.mem_cons_self d cs)
    simp only [splitLinesAux, if_neg hd]
    rw [ih (fun c hc => h c (List.mem_cons_of_mem d hc)) (d :: acc)]
    simp

theorem splitLinesAux_break (cs1 : List Char) :
    (∀ c ∈ cs1, c ≠ '\n') → ∀ (cs2 acc : List Char),
      splitLinesAux (cs1 ++ '\n' :: cs2) acc =
        String.mk (acc.reverse ++ cs1) :: splitLinesAux cs2 [] := by
  induction cs1 with
  | nil => intro _ cs2 acc; simp [splitLinesAux]
  | cons d cs1 ih =>
    intro h cs2 acc
    have hd : d ≠ '\n' := h d (List.mem_cons_self d cs1)
    simp only [List.cons_append, splitLinesAux, if_neg hd, List.append_eq]
    rw [ih (fun c hc => h c (List.mem_cons_of_mem d hc)) cs2 (d :: acc)]
    simp

theorem joinLines_append_single (l : List String) :
    l ≠ [] → ∀ x, joinLines (l ++ [x]) = joinLines l ++ ("\n") ++ x := by
  induction l with
  | nil => intro h; exact absurd rfl h
  | cons a t ih =>
    intro _ x
    cases t with
    | nil => rfl
    | cons b t2 =>
      have hj : joinLines (a :: b :: t2) = a ++ ("\n") ++ joinLines (b :: t2) := rfl
      have hj2 : joinLines ((a :: b :: t2) ++ [x])
          = a ++ ("\n") ++ joinLines ((b :: t2) ++ [x]) := rfl
      rw [hj2, ih (by simp) x, hj]
      simp only [String.append_assoc]

theorem splitLines_joinLines (l : List String) :
    l ≠ [] → (∀ x ∈ l, ∀ c ∈ x.data, c ≠ '\n') →
      splitLines (joinLines l) = l := by
  induction l with
  | nil => intro h; exact absurd rfl h
  | cons a t ih =>
    intro _ hnl
    cases t with
    | nil =>
      show splitLines a = [a]
      unfold splitLines
      rw [splitLinesAux_all_no_newline a.data (hnl a (by simp)) []]
      simp [stringMk_data_self]
    | cons b t2 =>
      show splitLines (a ++ ("\n") ++ joinLines (b :: t2)) = a :: b :: t2
      unfold splitLines
      have hdata : (a ++ ("\n") ++ joinLines (b :: t2)).data
          = a.data ++ '\n' :: (joinLines (b :: t2)).data := by
        simp [String.data_append]
      rw [hdata]
      rw [splitLinesAux_break a.data (hnl a (by simp)) (joinLines (b :: t2)).data []]
      have hrec : splitLinesAux (joinLines (b :: t2)).data [] = splitLines (joinLines (b :: t2)) := rfl
      rw [hrec, ih (by simp) (fun x hx => hnl x (List.mem_cons_of_mem a hx))]
      simp [stringMk_data_self]

theorem toDigitsCore_append10 (fuel : ℕ) :
    ∀ (n : ℕ) (ds : List Char),
      Nat.toDigitsCore 10 fuel n ds = Nat.toDigitsCore 10 fuel n [] ++ ds := by
  induction fuel with
  | zero => intro n ds; rfl
  | succ fuel ih =>
    intro n ds
    simp only [Nat.toDigitsCore]
    by_cases h : n / 10 = 0
    · simp [h]
    · simp only [if_neg h]
      rw [ih (n / 10) (Nat.digitChar (n % 10) :: ds),
        ih (n / 10) [Nat.digitChar (n % 10)]]
      simp

theorem readDigits_toDigitsCore (fuel : ℕ) :
    ∀ n : ℕ, n < fuel → readDigits (Nat.toDigitsCore 10 fuel n []) = n := by
  induction fuel with
  | zero => intro n h; omega
  | succ fuel ih =>
    intro n h
    have hd : ∀ k : ℕ, k < 10 → (Nat.digitChar k).toNat = 48 + k := by decide
    simp only [Nat.toDigitsCore]
    by_cases h0 : n / 10 = 0
    · simp only [if_pos h0]
      have h1 : n % 10 < 10 := by omega
      have h2 : readDigits [Nat.digitChar (n % 10)] = digitVal (Nat.digitChar (n % 10)) := by
        simp [readDigits]
      rw [h2]
      simp only [digitVal, hd (n % 10) h1]
      omega
    · simp only [if_neg h0]
      rw [toDigitsCore_append10 fuel (n / 10) [Nat.digitChar (n % 10)]]
      have h1 : readDigits (Nat.toDigitsCore 10 fuel (n / 10) [] ++ [Nat.digitChar (n % 10)])
          = readDigits (Nat.toDigitsCore 10 fuel (n / 10) []) * 10
            + digitVal (Nat.digitChar (n % 10)) := by
        simp [readDigits, List.foldl_append]
      rw [h1, ih (n / 10) (by omega)]
      have h2 : n % 10 < 10 := by omega
      simp only [digitVal, hd (n % 10) h2]
      omega

theorem natRepr_injective (m n : ℕ) (h : Nat.repr m = Nat.repr n) : m = n := by
  have h2 : Nat.toDigits 10 m = Nat.toDigits 10 n := by
    have h3 := congrArg String.data h
    simpa [Nat.repr, List.asString] using h3
  have h4 := congrArg readDigits h2
  unfold Nat.toDigits at h4
  rw [readDigits_toDigitsCore (m + 1) m (by omega),
    readDigits_toDigitsCore (n + 1) n (by omega)] at h4
  exact h4

theorem jobIdOf_injective (m n : ℕ) (h : jobIdOf m = jobIdOf n) : m = n :=
  natRepr_injective m n h

theorem lt_div_succ_mul (a b : ℕ) (hb : 0 < b) : a < (a / b + 1) * b :=
  calc a = b * (a / b) + a % b := (Nat.div_add_mod a b).symm
    _ < b * (a / b) + b := Nat.add_lt_add_left (Nat.mod_lt a hb) _
    _ = (a / b + 1) * b := by ring

theorem ceil_div_eq_natDiv (a b : ℕ) (hb : 0 < b) :
    ⌈(a : ℚ) / (b : ℚ)⌉ = ((a + b - 1) / b : ℕ) := by
  have hbQ : (0 : ℚ) < (b : ℚ) := by exact_mod_cast hb
  have h2 : a + b - 1 < (a + b - 1) / b * b + b := by
    have h := lt_div_succ_mul (a + b - 1) b hb
    have e : ((a + b - 1) / b + 1) * b = (a + b - 1) / b * b + b := by ring
    rw [e] at h
    exact h
  have hA : a ≤ (a + b - 1) / b * b := by omega
  rw [Int.ceil_eq_iff]
  constructor
  · rcases Nat.eq_zero_or_pos ((a + b - 1) / b) with h0 | h1
    · rw [h0]
      have hnn : (0 : ℚ) ≤ (a : ℚ) / (b : ℚ) := by positivity
      push_cast
      linarith
    · rw [lt_div_iff₀ hbQ]
      have h3 : (a + b - 1) / b * b ≤ a + b - 1 := Nat.div_mul_le_self (a + b - 1) b
      have hbk : b ≤ (a + b - 1) / b * b := Nat.le_mul_of_pos_left b h1
      have hlt : (a + b - 1) / b * b - b < a := by omega
      have hcast : (((a + b - 1) / b * b - b : ℕ) : ℚ) < (a : ℚ) := by exact_mod_cast hlt
      have e2 : (((a + b - 1) / b * b - b : ℕ) : ℚ)
          = (((a + b - 1) / b : ℕ) : ℚ) * (b : ℚ) - (b : ℚ) := by
        rw [Nat.cast_sub hbk]
        push_cast
        ring
      rw [e2] at hcast
      rw [Int.cast_natCast]
      have e3 : ((((a + b - 1) / b : ℕ) : ℚ) - 1) * (b : ℚ)
          = (((a + b - 1) / b : ℕ) : ℚ) * (b : ℚ) - (b : ℚ) := by ring
      rw [e3]
      linarith
  · rw [div_le_iff₀ hbQ]
    have hcast : (a : ℚ) ≤ (((a + b - 1) / b : ℕ) : ℚ) * (b : ℚ) := by exact_mod_cast hA
    rw [Int.cast_natCast]
    exact hcast

theorem take_min_length {α : Type} (l : List α) (k : ℕ) :
    l.take (min l.length k) = l.take k := by
  rcases le_total l.length k with h | h
  · rw [min_eq_left h, List.take_of_length_le h, List.take_of_length_le (le_refl _)]
  · rw [min_eq_right h]

/-- C1: For every non-empty commit set used by a job, the assembled record
field timestampOfMostRecentCommit equals the maximum date among those
commits; the commit the reduce selects is the first one in iteration order
whose date attains that maximum, because the strict comparison keeps the
earlier commit on ties. -/
theorem timestampOfMostRecentCommit_eq_max (draft : ChangelogDraft)
    (c : CommitSummary) (l : List CommitSummary)
    (version title : Option String) (startDate endDate : String) :
    ∃ m : CommitSummary, mostRecentCommit (c :: l) = some m ∧
      (∀ x ∈ c :: l, x.date ≤ m.date) ∧
      ((c :: l).find? fun x => x.date == m.date) = some m ∧
      (buildChangelogData draft (c :: l) version title startDate endDate).map
        (fun d => d.timestampOfMostRecentCommit) = some m.date := by
  refine ⟨pickLatest c l, mostRecentCommit_cons c l, ?_, find?_max_eq_pickLatest l c, ?_⟩
  · intro x hx
    rcases List.mem_cons.mp hx with h | h
    · subst h
      exact date_le_pickLatest l x
    · exact mem_date_le_pickLatest l c x h
  · unfold buildChangelogData
    rw [mostRecentCommit_cons c l]
    rfl

/-- C2: The claim says every generation request inserts a processing job
before the id is returned. The shipped server installs no JSON body
parser, so req.body is undefined for every request and the destructure at
src/server.js:344 throws before the insert at line 348 can run: every POST
answers 500 with the fixed message, the server state is unchanged, and no
job entry appears under the id the request would have been given. -/
theorem post_without_body_parser_never_inserts (s : ServerState) (now : ℕ) :
    postChangelogsHandler s shippedRequestBody now
      = (⟨500, ResponseBody.errorBody ("Failed to start changelog generation")⟩, s) ∧
    tableGet (postChangelogsHandler s shippedRequestBody now).2.1 (jobIdOf now)
      = tableGet s.1 (jobIdOf now) ∧
    getStatusHandler (postChangelogsHandler s shippedRequestBody now).2 (jobIdOf now)
      = getStatusHandler s (jobIdOf now) :=
  ⟨rfl, rfl, rfl⟩

/-- C3: Any failure among commit fetching, summarization, or persistence
drives the job to the one terminal record with status error, completed
true, and the fixed generic message; the table entry written is the same
constant failedJob whatever the underlying exception carried, so no
original error detail reaches the caller. -/
theorem background_failure_coalesced (table : JobTable) (store : List ChangelogData)
    (jobId : String) (fetchResult : Except JsError (List CommitSummary))
    (summarizeResult : Except JsError ChangelogDraft)
    (addDocResult : Except JsError String) (completionTime : ℤ)
    (version title : Option String) (startDate endDate : String)
    (h : (∃ e, fetchResult = Except.error e) ∨ (∃ e, summarizeResult = Except.error e) ∨
      (∃ commits draft e, fetchResult = Except.ok commits ∧ summarizeResult = Except.ok draft ∧
        storeChangelog store draft commits version title startDate endDate addDocResult
          = Except.error e)) :
    tableGet (generateChangelogAsync table store jobId fetchResult summarizeResult
        addDocResult completionTime version title startDate endDate).1 jobId
      = some failedJob ∧
    failedJob.status = JobStatus.error ∧ failedJob.completed = true ∧
    failedJob.error = some ("Failed to generate changelog") ∧
    failedJob.changelog = none := by
  refine ⟨?_, rfl, rfl, rfl, rfl⟩
  rcases h with ⟨e, he⟩ | ⟨e, he⟩ | ⟨commits, draft, e, hf, hs, hst⟩
  · subst he
    unfold generateChangelogAsync
    exact tableGet_tableSet_self table jobId failedJob
  · rcases fetchResult with e2 | commits
    · unfold generateChangelogAsync
      exact tableGet_tableSet_self table jobId failedJob
    · subst he
      unfold generateChangelogAsync
      exact tableGet_tableSet_self table jobId failedJob
  · subst hf
    subst hs
    unfold generateChangelogAsync
    dsimp only
    rw [hst]
    exact tableGet_tableSet_self table jobId failedJob

/-- Witness for C3: a concrete run whose commit fetch throws. -/
theorem background_failure_coalesced_witness :
    tableGet (generateChangelogAsync [] [] ("1") (Except.error (JsError.external ("boom")))
        (Except.ok ⟨[]⟩) (Except.ok ("doc")) 0 none none ("2024-01-01") ("2024-01-31")).1 ("1")
      = some failedJob ∧
    failedJob.status = JobStatus.error ∧ failedJob.completed = true ∧
    failedJob.error = some ("Failed to generate changelog") ∧
    failedJob.changelog = none :=
  background_failure_coalesced [] [] ("1") (Except.error (JsError.external ("boom")))
    (Except.ok ⟨[]⟩) (Except.ok ("doc")) 0 none none ("2024-01-01") ("2024-01-31")
    (Or.inl ⟨JsError.external ("boom"), rfl⟩)

/-- C4 counterexample: the id allocation at src/server.js:345 runs only
for a request whose body was parsed (as shipped it never runs, every POST
failing first; see the C2 theorem). When two such submit calls of one run
observe the same Date.now millisecond value, both receive the same job id
(the clock value rendered in decimal), and the second insert overwrites
the first entry, leaving a single job table entry for the two submits. -/
theorem same_millisecond_submits_collide :
    (postChangelogsHandler
        (postChangelogsHandler initialState
          (some ⟨none, none, none, none⟩) 1700000000000).2
        (some ⟨none, none, none, none⟩) 1700000000000).1.body
      = (postChangelogsHandler initialState
          (some ⟨none, none, none, none⟩) 1700000000000).1.body ∧
    ((postChangelogsHandler
        (postChangelogsHandler initialState
          (some ⟨none, none, none, none⟩) 1700000000000).2
        (some ⟨none, none, none, none⟩) 1700000000000).2.1).length = 1 := by
  constructor
  · rfl
  · decide

/-- C4 amended: when the allocation at src/server.js:345 runs at all
(this needs a parsed request body, which the shipped server never has),
two submit calls that observe distinct Date.now values receive distinct
job ids, because the id is the decimal rendering of the observed clock
value and that rendering is injective; submits that fall in the same
millisecond collide, as the counterexample shows. -/
theorem distinct_clock_distinct_jobIds (s1 s2 : ServerState)
    (b1 b2 : GenerateBody) (now1 now2 : ℕ) (h : now1 ≠ now2) :
    (postChangelogsHandler s1 (some b1) now1).1.body
      ≠ (postChangelogsHandler s2 (some b2) now2).1.body := by
  intro heq
  have h2 : ResponseBody.idBody (jobIdOf now1) = ResponseBody.idBody (jobIdOf now2) := heq
  have h3 : jobIdOf now1 = jobIdOf now2 := by injection h2
  exact h (jobIdOf_injective now1 now2 h3)

/-- Witness for the amended C4 at two concrete distinct clock values. -/
theorem distinct_clock_distinct_jobIds_witness :
    (postChangelogsHandler initialState (some ⟨none, none, none, none⟩) 1).1.body
      ≠ (postChangelogsHandler initialState (some ⟨none, none, none, none⟩) 2).1.body :=
  distinct_clock_distinct_jobIds initialState initialState
    ⟨none, none, none, none⟩ ⟨none, none, none, none⟩ 1 2 (by decide)

/-- C5: For a file patch with N lines, the rendered preview consists of
exactly the first min(N, 5) lines of the patch verbatim, followed by an
ellipsis line exactly when N exceeds 5; a file without a patch contributes
an empty preview body. -/
theorem patchPreview_truncates_to_five_lines (p : String) :
    splitLines (patchPreview (some p)) =
      (splitLines p).take (min (splitLines p).length 5) ++
        (if 5 < (splitLines p).length then [("...")] else []) ∧
    patchPreview (some p) =
      joinLines ((splitLines p).take (min (splitLines p).length 5)) ++
        (if 5 < (splitLines p).length then ("\n...") else ("")) ∧
    patchPreview none = ("") := by
  have hL5 : (splitLines p).take (min (splitLines p).length 5) = (splitLines p).take 5 :=
    take_min_length (splitLines p) 5
  have hnl : ∀ x ∈ splitLines p, ∀ c ∈ x.data, c ≠ '\n' :=
    splitLinesAux_no_newline p.data [] (by simp)
  have hdef : patchPreview (some p)
      = (if p = ("") then ("")
        else joinLines ((splitLines p).take 5) ++
          (if 5 < (splitLines p).length then ("\n...") else (""))) := rfl
  by_cases hp : p = ("")
  · subst hp
    refine ⟨by decide, by decide, rfl⟩
  · refine ⟨?_, ?_, rfl⟩
    · rw [hdef, if_neg hp, hL5]
      by_cases h5 : 5 < (splitLines p).length
      · rw [if_pos h5, if_pos h5]
        have hlen : ((splitLines p).take 5).length = 5 := by
          rw [List.length_take]
          omega
        have htne : (splitLines p).take 5 ≠ [] := by
          intro hemp
          rw [hemp] at hlen
          simp at hlen
        have hsuffix : ("\n") ++ ("...") = ("\n...") := by decide
        have hjoin := joinLines_append_single ((splitLines p).take 5) htne ("...")
        rw [String.append_assoc, hsuffix] at hjoin
        rw [← hjoin]
        have hdots : ∀ c ∈ ("...").data, c ≠ '\n' := by decide
        have hnl2 : ∀ x ∈ (splitLines p).take 5 ++ [("...")], ∀ c ∈ x.data, c ≠ '\n' := by
          intro x hx c hc
          rcases List.mem_append.mp hx with h1 | h1
          · exact hnl x (List.take_subset 5 (splitLines p) h1) c hc
          · rw [List.mem_singleton] at h1
            subst h1
            exact hdots c hc
        rw [splitLines_joinLines ((splitLines p).take 5 ++ [("...")]) (by simp) hnl2]
      · rw [if_neg h5, if_neg h5]
        rw [String.append_empty]
        rw [List.take_of_length_le (by omega)]
        rw [List.append_nil]
        exact splitLines_joinLines (splitLines p) (splitLines_ne_nil p) hnl
    · rw [hdef, if_neg hp, hL5]

/-- C6: The persisted sections mirror the summarizer draft one to one and
in order: same number of sections, each heading is the category of the
draft section at the same index, each bullet list is as long as the draft
item list at that index, and every bullet takes its text and its link from
the draft item at the same position. -/
theorem sections_mirror_draft (d : ChangelogDraft) :
    (toSections d).length = d.changes.length ∧
    (∀ i : ℕ, ((toSections d)[i]?).map (fun s => s.heading)
        = (d.changes[i]?).map (fun ch => ch.category)) ∧
    (∀ i : ℕ, ((toSections d)[i]?).map (fun s => s.bulletPoints.length)
        = (d.changes[i]?).map (fun ch => ch.items.length)) ∧
    (∀ i j : ℕ, (((toSections d)[i]?).bind (fun s => s.bulletPoints[j]?)).map
          (fun b => b.bulletPointDetails)
        = ((d.changes[i]?).bind (fun ch => ch.items[j]?)).map (fun it => it.description)) ∧
    (∀ i j : ℕ, (((toSections d)[i]?).bind (fun s => s.bulletPoints[j]?)).map
          (fun b => b.linkToRelevantCommit)
        = ((d.changes[i]?).bind (fun ch => ch.items[j]?)).map (fun it => it.commitLink)) := by
  refine ⟨by simp [toSections], ?_, ?_, ?_, ?_⟩
  · intro i
    simp only [toSections, List.getElem?_map]
    cases d.changes[i]? <;> simp
  · intro i
    simp only [toSections, List.getElem?_map]
    cases d.changes[i]? <;> simp
  · intro i j
    simp only [toSections, List.getElem?_map]
    cases d.changes[i]? with
    | none => rfl
    | some ch =>
      simp only [Option.map_some', Option.some_bind, List.getElem?_map]
      cases ch.items[j]? <;> rfl
  · intro i j
    simp only [toSections, List.getElem?_map]
    cases d.changes[i]? with
    | none => rfl
    | some ch =>
      simp only [Option.map_some', Option.some_bind, List.getElem?_map]
      cases ch.items[j]? <;> rfl

/-- C7: For a job id never allocated by any submit of the run, the status
route responds 404 with the fixed body and returns the server state
unchanged, so the read has no side effect on the job table or the store. -/
theorem getStatus_unknown_id_not_found (evs : List ServerEvent) (id : String)
    (hbg : ∀ (now : ℕ) (args : BgArgs), ServerEvent.bg now args ∈ evs →
      ∃ b : GenerateBody, ServerEvent.post now (some b) ∈ evs)
    (hid : id ∉ allocatedIds evs) :
    tableGet (runEvents initialState evs).1 id = none ∧
    getStatusHandler (runEvents initialState evs) id =
      (⟨404, ResponseBody.errorBody ("Job not found")⟩, runEvents initialState evs) := by
  have hkeys : ∀ e ∈ evs, writtenKey e ≠ some id := by
    intro e he
    cases e with
    | post now body =>
      cases body with
      | none => exact fun hk => Option.noConfusion hk
      | some b =>
        intro hk
        have hkey : jobIdOf now = id := by injection hk
        refine hid ?_
        rw [← hkey]
        exact List.mem_filterMap.mpr ⟨ServerEvent.post now (some b), he, rfl⟩
    | bg now args =>
      intro hk
      obtain ⟨b, hpost⟩ := hbg now args he
      have hkey : jobIdOf now = id := by injection hk
      refine hid ?_
      rw [← hkey]
      exact List.mem_filterMap.mpr ⟨ServerEvent.post now (some b), hpost, rfl⟩
  have hnone : tableGet (runEvents initialState evs).1 id = none := by
    rw [tableGet_runEvents_of_not_written evs initialState id hkeys]
    rfl
  refine ⟨hnone, ?_⟩
  unfold getStatusHandler
  rw [hnone]

/-- Witness for C7: one submit with a parsed body happened at clock value
5 and an id never allocated is queried. -/
theorem getStatus_unknown_id_not_found_witness :
    tableGet (runEvents initialState
        [ServerEvent.post 5 (some ⟨none, none, none, none⟩)]).1 ("missing") = none ∧
    getStatusHandler (runEvents initialState
        [ServerEvent.post 5 (some ⟨none, none, none, none⟩)]) ("missing") =
      (⟨404, ResponseBody.errorBody ("Job not found")⟩,
        runEvents initialState [ServerEvent.post 5 (some ⟨none, none, none, none⟩)]) :=
  getStatus_unknown_id_not_found [ServerEvent.post 5 (some ⟨none, none, none, none⟩)]
    ("missing")
    (fun now args hmem => ServerEvent.noConfusion (List.mem_singleton.mp hmem))
    (by decide)

/-- C8: The commits route computes totalPages as the ceiling of
totalCommits over pageSize, which equals the closed natural-number
formula, and reports hasMore exactly when (page + 1) * pageSize is
strictly below totalCommits, for every page and positive pageSize. -/
theorem commits_pagination_spec (page pageSize totalCommits : ℕ) (h : 0 < pageSize) :
    (commitsPageMeta page pageSize totalCommits).totalPages
      = ⌈(totalCommits : ℚ) / (pageSize : ℚ)⌉ ∧
    (commitsPageMeta page pageSize totalCommits).totalPages
      = ((totalCommits + pageSize - 1) / pageSize : ℕ) ∧
    ((commitsPageMeta page pageSize totalCommits).hasMore = true
      ↔ (page + 1) * pageSize < totalCommits) := by
  refine ⟨rfl, ceil_div_eq_natDiv totalCommits pageSize h, ?_⟩
  simp [commitsPageMeta]

/-- Witness for C8 at page 0, page size 10, and 25 total commits. -/
theorem commits_pagination_spec_witness :
    (commitsPageMeta 0 10 25).totalPages = ⌈((25 : ℕ) : ℚ) / ((10 : ℕ) : ℚ)⌉ ∧
    (commitsPageMeta 0 10 25).totalPages = ((25 + 10 - 1) / 10 : ℕ) ∧
    ((commitsPageMeta 0 10 25).hasMore = true ↔ (0 + 1) * 10 < 25) :=
  commits_pagination_spec 0 10 25 (by decide)

/-- C9: When fetch, summarization, and persistence all succeed, the job
table entry becomes completed and carries the changelog object holding the
newly assigned store record id, the completion timestamp, the caller
supplied version and title, and the draft change list; the assembled
record is appended to the store. -/
theorem completed_job_carries_record (table : JobTable) (store : List ChangelogData)
    (jobId : String) (c : CommitSummary) (l : List CommitSummary)
    (draft : ChangelogDraft) (docId : String) (completionTime : ℤ)
    (version title : Option String) (startDate endDate : String) :
    tableGet (generateChangelogAsync table store jobId (Except.ok (c :: l))
        (Except.ok draft) (Except.ok docId) completionTime version title
        startDate endDate).1 jobId
      = some { status := JobStatus.completed, completed := true,
               changelog := some { id := docId, date := completionTime,
                                   version := version, title := title,
                                   changes := draft.changes },
               error := none } ∧
    (generateChangelogAsync table store jobId (Except.ok (c :: l))
        (Except.ok draft) (Except.ok docId) completionTime version title
        startDate endDate).2
      = store ++ [{ timestampOfMostRecentCommit := (pickLatest c l).date,
                    version := orNull version, title := orNull title,
                    startDate := startDate, endDate := endDate,
                    sections := toSections draft }] := by
  have hstore : storeChangelog store draft (c :: l) version title startDate endDate
      (Except.ok docId)
      = Except.ok (store ++ [{ timestampOfMostRecentCommit := (pickLatest c l).date,
                               version := orNull version, title := orNull title,
                               startDate := startDate, endDate := endDate,
                               sections := toSections draft }], docId) := by
    unfold storeChangelog buildChangelogData
    rw [mostRecentCommit_cons c l]
    rfl
  unfold generateChangelogAsync
  dsimp only
  rw [hstore]
  exact ⟨tableGet_tableSet_self table jobId _, rfl⟩

/-- C10: A run whose fetched commit set is empty fails inside record
assembly: the reduce over the empty set yields null, reading the date
raises the TypeError before addDoc runs, so storeChangelog yields the
TypeError, the job ends in the terminal failed record, and the store is
left unchanged. This holds whatever the summarizer call produced. -/
theorem empty_commit_set_fails_before_persist (table : JobTable)
    (store : List ChangelogData) (jobId : String) (draft : ChangelogDraft)
    (summarizeResult : Except JsError ChangelogDraft)
    (addDocResult : Except JsError String) (completionTime : ℤ)
    (version title : Option String) (startDate endDate : String) :
    storeChangelog store draft [] version title startDate endDate addDocResult
      = Except.error JsError.typeError ∧
    tableGet (generateChangelogAsync table store jobId (Except.ok [])
        summarizeResult addDocResult completionTime version title
        startDate endDate).1 jobId = some failedJob ∧
    (generateChangelogAsync table store jobId (Except.ok [])
        summarizeResult addDocResult completionTime version title
        startDate endDate).2 = store := by
  have hstore : ∀ d : ChangelogDraft,
      storeChangelog store d [] version title startDate endDate addDocResult
        = Except.error JsError.typeError := by
    intro d
    rfl
  refine ⟨hstore draft, ?_, ?_⟩
  · unfold generateChangelogAsync
    rcases summarizeResult with e | d
    · exact tableGet_tableSet_self table jobId failedJob
    · dsimp only
      rw [hstore d]
      exact tableGet_tableSet_self table jobId failedJob
  · unfold generateChangelogAsync
    rcases summarizeResult with e | d
    · rfl
    · dsimp only
      rw [hstore d]
